import Mathlib

/-!
# Verification of the video-encoder transcode orchestration core

Shallow embedding of `src/src/components/VideoEncoder.tsx`.

The component's pure helpers (`getScalingFilter`, `validateCustomSettings`,
`useEncodingTime`'s effect body, the presets table) are translated to Lean
functions.  The stateful `handleEncode` callback is embedded as a function
from the component state plus an "engine behavior" record (the outcomes of
the awaited engine steps) to the final state together with the ordered list
of observable effects (engine filesystem writes, engine invocations,
object-URL creations/revocations, downloads, notifications).

JavaScript numbers appearing in the component (resolutions, bitrates,
progress fractions) are modelled as exact rationals; `jsNumToString` models
JavaScript's default number-to-string conversion on values with a finite
decimal expansion, which covers every value exactly representable by the
numeric inputs of the component.
-/

namespace VideoEncoder

/-- Model of JavaScript template-literal rendering of a number, exact on
numbers with a finite decimal expansion (integers print without a decimal
point; otherwise the shortest exact decimal expansion is printed).  Every
value a JS float can hold has a denominator that is a power of two, hence a
finite decimal expansion. -/
def jsNumToString (q : ℚ) : String :=
  if q.den = 1 then toString q.num
  else
    let sign := if q.num < 0 then "-" else ""
    let n := q.num.natAbs
    let k := (((List.range 64).find? (fun k => q.den ∣ 10 ^ k)).getD 0)
    let scaled := n * (10 ^ k / q.den)
    let ip := scaled / 10 ^ k
    let fdigits := Nat.toDigits 10 (scaled % 10 ^ k)
    let pad := List.replicate (k - fdigits.length) '0'
    sign ++ toString ip ++ "." ++ String.mk (pad ++ fdigits)

/-- Whether the first list is a leading segment of the second. -/
def startsWithList : List Char → List Char → Bool
  | [], _ => true
  | _ :: _, [] => false
  | p :: ps, c :: cs => p == c && startsWithList ps cs

/-- Model of JavaScript `String.prototype.replace` with a string pattern:
replaces the first occurrence of `pat` (if any) by `rep`. -/
def jsReplaceList (rep : List Char) : List Char → List Char → List Char
  | [], pat => if pat = [] then rep else []
  | c :: cs, pat =>
    if startsWithList pat (c :: cs) then rep ++ (c :: cs).drop pat.length
    else c :: jsReplaceList rep cs pat

/-- `s.replace(pat, rep)` in JavaScript (string pattern: first occurrence only). -/
def jsReplace (s pat rep : String) : String :=
  ⟨jsReplaceList rep.data s.data pat.data⟩

/-- `type ScalingStrategy = "cover" | "contain" | "fill"` (line 26). -/
inductive ScalingStrategy
  | cover
  | contain
  | fill
deriving DecidableEq, Repr

/-- `interface Preset` (lines 28–32). -/
structure Preset where
  name : String
  resolution : Option ℕ
  bitrate : Option String
deriving DecidableEq, Repr

/-- The `PRESETS` table (lines 39–43). -/
def PRESETS : List Preset :=
  [⟨"标清方形", some 480, some "1M"⟩,
   ⟨"高清方形", some 720, some "1.5M"⟩,
   ⟨"自定义", none, none⟩]

def MIN_RESOLUTION : ℚ := 100
def MAX_RESOLUTION : ℚ := 1920

/-- The source constant `0.5`, written as the already-reduced rational
`⟨1, 2⟩` so that it evaluates by kernel reduction; `MIN_BITRATE_eq` below
identifies it with `1 / 2`. -/
def MIN_BITRATE : ℚ := ⟨1, 2, by decide, Nat.coprime_one_left 2⟩

def MAX_BITRATE : ℚ := 10

/-- `validateCustomSettings` (lines 131–139): returns the error message for
an out-of-range field, or `none` when both fields are in range.  The message
strings interpolate the numeric bounds exactly as the template literals do. -/
def validateCustomSettings (resolution bitrate : ℚ) : Option String :=
  if resolution < MIN_RESOLUTION ∨ resolution > MAX_RESOLUTION then
    some ("分辨率必须在" ++ jsNumToString MIN_RESOLUTION ++ "到" ++
      jsNumToString MAX_RESOLUTION ++ "之间")
  else if bitrate < MIN_BITRATE ∨ bitrate > MAX_BITRATE then
    some ("比特率必须在" ++ jsNumToString MIN_BITRATE ++ "到" ++
      jsNumToString MAX_BITRATE ++ " Mbps之间")
  else none

/-- `getScalingFilter` (lines 365–374).  The closure captures
`scalingStrategy` and `backgroundColor` from the component state; they are
explicit arguments here.  The `cover` branch emits the crop-then-scale
expression (the `\,` in the source template literal is a single backslash
followed by a comma in the produced string); every other strategy falls to
the scale-then-pad expression whose pad color is
`backgroundColor.replace("#", "0x")`. -/
def getScalingFilter (scalingStrategy : ScalingStrategy)
    (backgroundColor : String) (resolution : ℚ) : String :=
  if scalingStrategy = ScalingStrategy.cover then
    "crop=min(iw\\,ih):min(iw\\,ih),scale=" ++ jsNumToString resolution ++
      ":" ++ jsNumToString resolution
  else
    "scale=" ++ jsNumToString resolution ++ ":" ++ jsNumToString resolution ++
      ":force_original_aspect_ratio=decrease,pad=" ++ jsNumToString resolution ++
      ":" ++ jsNumToString resolution ++ ":-1:-1:color=" ++
      jsReplace backgroundColor "#" "0x"

/-- Component state of `VideoEncoder` (lines 319–328) plus the two pieces of
`useFFmpeg` state it observes (`loaded`, `progress`, `logs`).  Files are
identified by name, object URLs by a numeric handle. -/
structure EncoderState where
  selectedPreset : String
  customResolution : ℚ
  customBitrate : ℚ
  file : Option String
  isEncoding : Bool
  scalingStrategy : ScalingStrategy
  backgroundColor : String
  encodedVideoUrl : Option ℕ
  loaded : Bool
  progress : ℚ
  logs : List String
deriving DecidableEq, Repr

/-- Observable effects of one `handleEncode` run, in emission order.
`revokeUrl` models the cleanup of the `useEffect` at lines 349–356, which
revokes the previous object URL when `encodedVideoUrl` is replaced;
`ffWrite` / `ffExec` / `ffRead` are the engine filesystem and invocation
steps; `createUrl` is `URL.createObjectURL`; `download` is the automatic
anchor click; `notify` is `notifications.show`. -/
inductive Effect
  | notify (title message color : String)
  | ffWrite (name : String)
  | ffExec (args : List String)
  | ffRead (name : String)
  | revokeUrl (u : ℕ)
  | createUrl (u : ℕ)
  | download (name : String) (u : ℕ)
deriving DecidableEq, Repr

/-- Outcome of the awaited engine steps inside `handleEncode`'s `try` block
(`fetchFile`, `ffmpeg.writeFile`, `ffmpeg.exec`, `ffmpeg.readFile`): `false`
means the step throws.  `freshUrl` is the handle `URL.createObjectURL`
returns for the new result. -/
structure EngineBehavior where
  fetchOk : Bool
  writeOk : Bool
  execOk : Bool
  readOk : Bool
  freshUrl : ℕ
deriving DecidableEq, Repr

/-- The failure notification of the `catch` block (lines 442–446). -/
def failNotify : Effect := Effect.notify "错误" "视频编码失败" "red"

/-- The success notification (lines 435–439). -/
def successNotify : Effect := Effect.notify "成功" "视频编码完成！" "green"

/-- `resolution` in `handleEncode` (line 404): the custom preset takes the
user's `customResolution`, others their table value. -/
def resolvedResolution (s : EncoderState) (p : Preset) : Option ℚ :=
  if p.name = "自定义" then some s.customResolution
  else p.resolution.map (fun n => (n : ℚ))

/-- `bitrate` in `handleEncode` (line 405): the custom preset serializes the
user's number as a template literal with an `M` suffix; otherwise
`preset.bitrate || "1M"` (JavaScript `||` also maps the empty string to
`"1M"`). -/
def resolvedBitrate (s : EncoderState) (p : Preset) : String :=
  if p.name = "自定义" then jsNumToString s.customBitrate ++ "M"
  else match p.bitrate with
    | some b => if b = "" then "1M" else b
    | none => "1M"

/-- The fixed `ffmpeg.exec` argument vector (lines 411–421), parameterized
only by the filter expression and the bitrate string. -/
def execArgs (filter bitrate : String) : List String :=
  ["-i", "input.mp4", "-filter:v", filter, "-b:v", bitrate,
   "-c:a", "copy", "output.mp4"]

/-- `file.name.split(".")[0]` (line 428): the prefix before the first dot. -/
def baseName (fileName : String) : String :=
  ⟨fileName.data.takeWhile (fun c => c ≠ '.')⟩

/-- The component state at the first await boundary of a job, after
`setIsEncoding(true)` and `clearLogs()` (lines 379–381, 399–400): the
previous result URL is cleared, the in-flight flag set and the log buffer
emptied.  No other field — in particular not `progress` — is written by the
trigger path. -/
def stagingState (s : EncoderState) : EncoderState :=
  { s with encodedVideoUrl := none, isEncoding := true, logs := [] }

/-- The revocation effect produced (via the cleanup of the `useEffect` at
lines 349–356) when `handleEncode` clears a non-null `encodedVideoUrl`. -/
def revokeEffects (s : EncoderState) : List Effect :=
  match s.encodedVideoUrl with
  | some u => [Effect.revokeUrl u]
  | none => []

/-- The `try/catch/finally` body of `handleEncode` (lines 398–449), starting
from the staged state: fetch the file bytes, write `input.mp4`, check the
resolution (JavaScript `!resolution` also throws on `0`), run the fixed
command, read `output.mp4`, publish the result URL and download, notifying
success; any throw lands in the `catch` (generic failure notification) and
the `finally` clears `isEncoding` on every path. -/
def runJob (staged : EncoderState) (p : Preset) (fileName : String)
    (beh : EngineBehavior) : EncoderState × List Effect :=
  if beh.fetchOk = false then
    ({ staged with isEncoding := false }, [failNotify])
  else if beh.writeOk = false then
    ({ staged with isEncoding := false }, [Effect.ffWrite "input.mp4", failNotify])
  else
    match resolvedResolution staged p with
    | none =>
      ({ staged with isEncoding := false }, [Effect.ffWrite "input.mp4", failNotify])
    | some r =>
      if r = 0 then
        ({ staged with isEncoding := false }, [Effect.ffWrite "input.mp4", failNotify])
      else
        let args := execArgs
          (getScalingFilter staged.scalingStrategy staged.backgroundColor r)
          (resolvedBitrate staged p)
        if beh.execOk = false then
          ({ staged with isEncoding := false },
            [Effect.ffWrite "input.mp4", Effect.ffExec args, failNotify])
        else if beh.readOk = false then
          ({ staged with isEncoding := false },
            [Effect.ffWrite "input.mp4", Effect.ffExec args,
             Effect.ffRead "output.mp4", failNotify])
        else
          ({ staged with isEncoding := false, encodedVideoUrl := some beh.freshUrl },
            [Effect.ffWrite "input.mp4", Effect.ffExec args,
             Effect.ffRead "output.mp4", Effect.createUrl beh.freshUrl,
             Effect.download ("encoded_" ++ baseName fileName ++ ".mp4") beh.freshUrl,
             successNotify])

/-- `handleEncode` (lines 376–449).  Guard: return immediately when no file
is selected or the engine is not loaded (line 377) — note the guard does not
consult `isEncoding`.  Then the previous result URL is cleared (line 379),
the preset looked up (line 383), custom settings validated (lines 386–396,
short-circuiting to an error notification), and the job body run from the
staged state. -/
def handleEncode (s : EncoderState) (beh : EngineBehavior) :
    EncoderState × List Effect :=
  match s.file with
  | none => (s, [])
  | some fileName =>
    if s.loaded = false then (s, [])
    else
      match PRESETS.find? (fun p => p.name = s.selectedPreset) with
      | none => ({ s with encodedVideoUrl := none }, revokeEffects s)
      | some p =>
        match (if p.name = "自定义" then
                validateCustomSettings s.customResolution s.customBitrate
              else none) with
        | some err =>
          ({ s with encodedVideoUrl := none },
            revokeEffects s ++ [Effect.notify "错误" err "red"])
        | none =>
          let r := runJob (stagingState s) p fileName beh
          (r.1, revokeEffects s ++ r.2)

/-- Whether the encode button can be activated, from its props at line 627
(`loading={isEncoding} disabled={!file || !loaded}`): a disabled button is
not clickable, and the UI library renders a loading button as disabled (the
spec's "re-trigger while in flight is rejected" guard lives here, in the
presentation layer). -/
def encodeButtonEnabled (s : EncoderState) : Bool :=
  s.file.isSome && s.loaded && !s.isEncoding

/-- The `progress` callback of `useFFmpeg` (lines 67–69): the only writer of
the `progress` field. -/
def onProgressEvent (s : EncoderState) (p : ℚ) : EncoderState :=
  { s with progress := p }

/-- Internal state of `useEncodingTime` (lines 97–99): the start-time ref
and the two displayed counters.  Times are milliseconds since the epoch,
counters are in whole seconds. -/
structure TimeState where
  startTime : Option ℤ
  elapsedTime : ℤ
  estimatedTime : ℤ
deriving DecidableEq, Repr

/-- The initial hook state (`useState(0)`, `useState(0)`, `useRef(null)`). -/
def initTimeState : TimeState := ⟨none, 0, 0⟩

/-- One run of the `useEncodingTime` effect body (lines 101–120), triggered
by an observation of `(isEncoding, progress)` at wall-clock `now`
(`Date.now()`).  While encoding with positive progress it captures the start
time on first observation, floors the elapsed seconds and derives the
estimate; when not encoding it resets everything; otherwise (encoding,
progress still 0) it leaves the state untouched. -/
def encodingTimeStep (st : TimeState) (isEncoding : Bool) (progress : ℚ)
    (now : ℤ) : TimeState :=
  if isEncoding = true ∧ progress > 0 then
    let start := st.startTime.getD now
    let elapsed := Int.fdiv (now - start) 1000
    let estimated := if progress > 0 then ⌊(elapsed : ℚ) / progress⌋
      else st.estimatedTime
    { startTime := some start, elapsedTime := elapsed, estimatedTime := estimated }
  else if isEncoding = false then
    { startTime := none, elapsedTime := 0, estimatedTime := 0 }
  else st

/-- The remaining-time figure the progress bar displays (lines 666–668):
`Math.max(estimatedTime - elapsedTime, 1)`. -/
def displayedRemaining (st : TimeState) : ℤ :=
  max (st.estimatedTime - st.elapsedTime) 1

/-- Bookkeeping of live object-URL handles along an effect trace:
`createUrl` adds a handle, `revokeUrl` releases one, everything else leaves
the set unchanged. -/
def urlStep (live : List ℕ) : Effect → List ℕ
  | Effect.createUrl u => u :: live
  | Effect.revokeUrl u => live.erase u
  | _ => live

/-- Live object-URL handles after an effect trace, starting from `init`. -/
def liveHandles (init : List ℕ) (es : List Effect) : List ℕ :=
  es.foldl urlStep init

/-- Modelled from the spec: the engine reads its command line as
flag/value pairs, so a flag's value is the token following it. -/
def argValue : List String → String → Option String
  | f :: v :: rest, flag => if f = flag then some v else argValue rest flag
  | _, _ => none

/-- Modelled from the spec: the engine derives the container format from the
output file extension; a `.mp4` output selects the MP4 container. -/
def containerForOutput (name : String) : String :=
  if ".mp4".data.isSuffixOf name.data then "MP4" else "other"

/-- Modelled from the spec: with no explicit video-codec flag the engine
defaults to H.264 for an MP4 output. -/
def effectiveVideoCodec (args : List String) : String :=
  (argValue args "-c:v").getD "H.264"

/-- Modelled from the spec: with no explicit speed/quality flag the engine
defaults to the "medium" preset. -/
def effectiveSpeedPreset (args : List String) : String :=
  (argValue args "-preset").getD "medium"

/-- Whether every awaited step of the job body succeeds (including the
resolution-is-set check with its JavaScript zero-is-falsy reading). -/
def jobSucceeds (staged : EncoderState) (p : Preset) (beh : EngineBehavior) : Bool :=
  beh.fetchOk && beh.writeOk &&
    (match resolvedResolution staged p with
     | none => false
     | some r => decide (r ≠ 0)) && beh.execOk && beh.readOk

/-- An all-successful engine behavior, for concrete runs. -/
def behOk : EngineBehavior := ⟨true, true, true, true, 42⟩

/-- An engine behavior whose `exec` step throws, for concrete runs. -/
def behExecFail : EngineBehavior := ⟨true, true, false, true, 5⟩

/-- A concrete component state with the default preset selected and no file
chosen yet. -/
def exNoFile : EncoderState :=
  { selectedPreset := "标清方形", customResolution := 480, customBitrate := 1,
    file := none, isEncoding := false, scalingStrategy := ScalingStrategy.cover,
    backgroundColor := "#000000", encodedVideoUrl := none, loaded := true,
    progress := 0, logs := [] }

/-- A concrete state with a file selected and a job already in flight. -/
def exInFlight : EncoderState :=
  { exNoFile with file := some "a.mp4", isEncoding := true }

/-- A concrete idle state with a file selected, ready to encode. -/
def exRun : EncoderState := { exNoFile with file := some "movie.clip.mp4" }

/-- A concrete idle state carrying the residue of a finished job: progress
still at 1, a previous result URL, and old log lines. -/
def exStale : EncoderState :=
  { exNoFile with
    file := some "b.mp4"
    progress := 1
    encodedVideoUrl := some 3
    logs := ["frame=1"] }

/-- A concrete state with the custom preset selected and an out-of-range
resolution. -/
def exCustomBad : EncoderState :=
  { exNoFile with
    selectedPreset := "自定义"
    customResolution := 50
    file := some "a.mp4" }

/-- The same custom-preset state with the resolution back in range. -/
def exCustomOk : EncoderState := { exCustomBad with customResolution := 480 }

section Lemmas

lemma MIN_BITRATE_eq : MIN_BITRATE = 1 / 2 := by
  unfold MIN_BITRATE
  rw [Rat.mk'_eq_divInt, Rat.divInt_eq_div]
  norm_num

lemma mem_revokeEffects {s : EncoderState} {e : Effect} (h : e ∈ revokeEffects s) :
    ∃ u, e = Effect.revokeUrl u ∧ s.encodedVideoUrl = some u := by
  unfold revokeEffects at h
  cases hu : s.encodedVideoUrl with
  | none => rw [hu] at h; simp at h
  | some u => rw [hu] at h; simp at h; exact ⟨u, h, rfl⟩

lemma handleEncode_no_file {s : EncoderState} {beh : EngineBehavior}
    (h : s.file = none) : handleEncode s beh = (s, []) := by
  unfold handleEncode
  rw [h]

lemma handleEncode_not_loaded {s : EncoderState} {beh : EngineBehavior} {fn : String}
    (hf : s.file = some fn) (h : s.loaded = false) : handleEncode s beh = (s, []) := by
  unfold handleEncode
  rw [hf, h]
  simp

lemma find_custom :
    PRESETS.find? (fun q => q.name = "自定义") = some ⟨"自定义", none, none⟩ := by
  rfl

lemma handleEncode_custom_invalid {s : EncoderState} {beh : EngineBehavior}
    {fn err : String}
    (hf : s.file = some fn) (hl : s.loaded = true) (hp : s.selectedPreset = "自定义")
    (hv : validateCustomSettings s.customResolution s.customBitrate = some err) :
    handleEncode s beh =
      ({ s with encodedVideoUrl := none },
        revokeEffects s ++ [Effect.notify "错误" err "red"]) := by
  unfold handleEncode
  rw [hf, hl, hp, find_custom]
  simp [hv]

lemma handleEncode_run {s : EncoderState} {beh : EngineBehavior} {fn : String}
    {p : Preset}
    (hf : s.file = some fn) (hl : s.loaded = true)
    (hfind : PRESETS.find? (fun q => q.name = s.selectedPreset) = some p)
    (hok : p.name = "自定义" →
      validateCustomSettings s.customResolution s.customBitrate = none) :
    handleEncode s beh =
      ((runJob (stagingState s) p fn beh).1,
        revokeEffects s ++ (runJob (stagingState s) p fn beh).2) := by
  unfold handleEncode
  simp only [hf, hl, hfind]
  by_cases hname : p.name = "自定义"
  · simp only [if_pos hname, hok hname]
    simp
  · simp only [if_neg hname]
    simp

lemma runJob_isEncoding (staged : EncoderState) (p : Preset) (fn : String)
    (beh : EngineBehavior) : (runJob staged p fn beh).1.isEncoding = false := by
  unfold runJob
  repeat' split
  all_goals rfl

lemma jobSucceeds_iff (staged : EncoderState) (p : Preset) (beh : EngineBehavior) :
    jobSucceeds staged p beh = true ↔
      beh.fetchOk = true ∧ beh.writeOk = true ∧
      (∃ r, resolvedResolution staged p = some r ∧ r ≠ 0) ∧
      beh.execOk = true ∧ beh.readOk = true := by
  unfold jobSucceeds
  rcases hres : resolvedResolution staged p with _ | r
  · simp [hres]
  · simp [hres]
    tauto

lemma runJob_success_trace {staged : EncoderState} {p : Preset} {fn : String}
    {beh : EngineBehavior} (h : jobSucceeds staged p beh = true) :
    ∃ r, resolvedResolution staged p = some r ∧ r ≠ 0 ∧
      runJob staged p fn beh =
        ({ staged with isEncoding := false, encodedVideoUrl := some beh.freshUrl },
          [Effect.ffWrite "input.mp4",
           Effect.ffExec (execArgs
             (getScalingFilter staged.scalingStrategy staged.backgroundColor r)
             (resolvedBitrate staged p)),
           Effect.ffRead "output.mp4", Effect.createUrl beh.freshUrl,
           Effect.download ("encoded_" ++ baseName fn ++ ".mp4") beh.freshUrl,
           successNotify]) := by
  rw [jobSucceeds_iff] at h
  obtain ⟨hfetch, hwrite, ⟨r, hres, hr0⟩, hexec, hread⟩ := h
  refine ⟨r, hres, hr0, ?_⟩
  unfold runJob
  rw [hfetch, hwrite, hres, hexec, hread]
  simp [hr0]

lemma runJob_fail_notify {staged : EncoderState} {p : Preset} {fn : String}
    {beh : EngineBehavior} (h : jobSucceeds staged p beh = false) :
    failNotify ∈ (runJob staged p fn beh).2 := by
  unfold jobSucceeds at h
  cases hfe : beh.fetchOk with
  | false => simp [runJob, hfe]
  | true =>
    cases hwr : beh.writeOk with
    | false => simp [runJob, hfe, hwr]
    | true =>
      rcases hres : resolvedResolution staged p with _ | r
      · simp [runJob, hfe, hwr, hres]
      · by_cases hr0 : r = 0
        · simp [runJob, hfe, hwr, hres, hr0]
        · cases hex : beh.execOk with
          | false => simp [runJob, hfe, hwr, hres, hr0, hex]
          | true =>
            cases hrd : beh.readOk with
            | false => simp [runJob, hfe, hwr, hres, hr0, hex, hrd]
            | true => simp_all

lemma runJob_mem_exec {staged : EncoderState} {p : Preset} {fn : String}
    {beh : EngineBehavior} {args : List String}
    (h : Effect.ffExec args ∈ (runJob staged p fn beh).2) :
    ∃ r, resolvedResolution staged p = some r ∧ r ≠ 0 ∧
      args = execArgs (getScalingFilter staged.scalingStrategy staged.backgroundColor r)
        (resolvedBitrate staged p) := by
  unfold runJob at h
  repeat' split at h
  all_goals simp_all [failNotify, successNotify]

lemma handleEncode_mem_exec {s : EncoderState} {beh : EngineBehavior}
    {args : List String}
    (h : Effect.ffExec args ∈ (handleEncode s beh).2) :
    ∃ p fn, s.file = some fn ∧
      PRESETS.find? (fun q => q.name = s.selectedPreset) = some p ∧
      Effect.ffExec args ∈ (runJob (stagingState s) p fn beh).2 := by
  unfold handleEncode at h
  repeat' split at h
  · simp at h
  · simp at h
  · obtain ⟨u, hu, _⟩ := mem_revokeEffects h
    exact absurd hu (by simp)
  · rcases List.mem_append.mp h with h | h
    · obtain ⟨u, hu, _⟩ := mem_revokeEffects h
      exact absurd hu (by simp)
    · simp at h
  · rcases List.mem_append.mp h with h | h
    · obtain ⟨u, hu, _⟩ := mem_revokeEffects h
      exact absurd hu (by simp)
    · exact ⟨_, _, by assumption, by assumption, h⟩

lemma validation_stop {s : EncoderState} {beh : EngineBehavior} {fn err : String}
    (hf : s.file = some fn) (hl : s.loaded = true)
    (hp : s.selectedPreset = "自定义")
    (hv : validateCustomSettings s.customResolution s.customBitrate = some err) :
    handleEncode s beh =
      ({ s with encodedVideoUrl := none },
        revokeEffects s ++ [Effect.notify "错误" err "red"]) ∧
    (∀ args, Effect.ffExec args ∉ (handleEncode s beh).2) ∧
    (∀ nm, Effect.ffWrite nm ∉ (handleEncode s beh).2) := by
  have heq := @handleEncode_custom_invalid s beh fn err hf hl hp hv
  refine ⟨heq, ?_, ?_⟩
  · intro args hmem
    rw [heq] at hmem
    rcases List.mem_append.mp hmem with hmem | hmem
    · obtain ⟨u, hu, _⟩ := mem_revokeEffects hmem
      exact absurd hu (by simp)
    · simp at hmem
  · intro nm hmem
    rw [heq] at hmem
    rcases List.mem_append.mp hmem with hmem | hmem
    · obtain ⟨u, hu, _⟩ := mem_revokeEffects hmem
      exact absurd hu (by simp)
    · simp at hmem

end Lemmas

section Theorems

/-- Claim C2: under the Cover strategy the filter builder returns exactly
the crop-to-centered-min-square-then-scale-to-r×r expression (the engine's
`crop=w:h` form centers by default and the expression contains no pad step),
for every resolution and independently of the background color; as a total
Lean function of its arguments the builder is pure, so equal inputs yield
the identical expression string. -/
theorem cover_filter_exact (backgroundColor : String) (r : ℚ) :
    getScalingFilter ScalingStrategy.cover backgroundColor r =
      "crop=min(iw\\,ih):min(iw\\,ih),scale=" ++ jsNumToString r ++ ":" ++
        jsNumToString r := by
  rfl

/-- Claim C3: under the Contain strategy the filter builder returns exactly
the scale-within-r×r (aspect preserved, `force_original_aspect_ratio=decrease`,
never upscaling beyond fit) then pad-to-r×r expression (the `-1:-1` offsets
center the scaled frame), whose pad color literal is the `#RRGGBB` input
with the leading `#` replaced by the engine prefix `0x`. -/
theorem contain_filter_exact (rgb : List Char) (r : ℚ) :
    getScalingFilter ScalingStrategy.contain (String.mk ('#' :: rgb)) r =
      "scale=" ++ jsNumToString r ++ ":" ++ jsNumToString r ++
        ":force_original_aspect_ratio=decrease,pad=" ++ jsNumToString r ++
        ":" ++ jsNumToString r ++ ":-1:-1:color=" ++
        ("0x" ++ String.mk rgb) := by
  rfl

/-- Claim C10: the filter builder is total over the code's three-variant
strategy type, and every strategy other than `cover` — in particular the
`fill` variant absent from the spec's two-variant enumeration — produces
the very expression the `contain` strategy produces. -/
theorem fill_falls_through_to_contain (backgroundColor : String) (r : ℚ) :
    getScalingFilter ScalingStrategy.fill backgroundColor r =
      getScalingFilter ScalingStrategy.contain backgroundColor r ∧
    ∀ st : ScalingStrategy, st ≠ ScalingStrategy.cover →
      getScalingFilter st backgroundColor r =
        getScalingFilter ScalingStrategy.contain backgroundColor r := by
  refine ⟨rfl, ?_⟩
  intro st hst
  cases st with
  | cover => exact absurd rfl hst
  | contain => rfl
  | fill => rfl

/-- Witness for C10 at the `fill` strategy, background `#000000`,
resolution 480. -/
theorem fill_falls_through_to_contain_witness :
    ScalingStrategy.fill ≠ ScalingStrategy.cover ∧
    getScalingFilter ScalingStrategy.fill "#000000" 480 =
      getScalingFilter ScalingStrategy.contain "#000000" 480 :=
  ⟨by decide,
   (fill_falls_through_to_contain "#000000" 480).2 ScalingStrategy.fill (by decide)⟩

/-- Claim C1 (counterexample): `handleEncode` itself does not consult the
in-flight flag.  In the concrete state `exInFlight` a job is already in
flight (`isEncoding = true`), yet calling `handleEncode` is not a no-op: it
invokes the engine (an `ffExec` effect is emitted) and changes state —
refuting "every call while a job is in flight is rejected with no second
engine invocation". -/
theorem trigger_no_inflight_check_cex :
    exInFlight.isEncoding = true ∧
    Effect.ffExec (execArgs (getScalingFilter ScalingStrategy.cover "#000000" 480) "1M")
      ∈ (handleEncode exInFlight behOk).2 ∧
    handleEncode exInFlight behOk ≠ (exInFlight, []) := by
  refine ⟨rfl, by decide, by decide⟩

/-- Claim C1 (amended): `handleEncode`'s own guard rejects a call only when
no file is selected or the engine is not loaded (then it is a strict no-op:
state unchanged, no effects); the re-trigger-while-in-flight rejection lives
in the presentation layer — while `isEncoding` is true the encode button is
not activatable (it is rendered loading/disabled), so no second call can be
made through the interface. -/
theorem trigger_guard_location :
    (∀ (s : EncoderState) (beh : EngineBehavior),
      s.file = none ∨ s.loaded = false → handleEncode s beh = (s, [])) ∧
    (∀ s : EncoderState, s.isEncoding = true → encodeButtonEnabled s = false) := by
  constructor
  · intro s beh h
    rcases h with h | h
    · exact handleEncode_no_file h
    · rcases hf : s.file with _ | fn
      · exact handleEncode_no_file hf
      · exact handleEncode_not_loaded hf h
  · intro s h
    simp [encodeButtonEnabled, h]

/-- Witness for the amended C1: a no-file call is a strict no-op, and the
encode button is disabled in the in-flight state. -/
theorem trigger_guard_location_witness :
    handleEncode exNoFile behOk = (exNoFile, []) ∧
    encodeButtonEnabled exInFlight = false :=
  ⟨trigger_guard_location.1 exNoFile behOk (Or.inl rfl),
   trigger_guard_location.2 exInFlight rfl⟩

/-- Claim C6: once a job starts (file present, engine loaded, preset found,
custom validation passed), the in-flight flag is false again when
`handleEncode` returns, on success and on any thrown step alike; every
failing run surfaces the generic failure notification and every successful
run the success notification. -/
theorem inflight_flag_cleared :
    ∀ (s : EncoderState) (beh : EngineBehavior) (fn : String) (p : Preset),
    s.file = some fn → s.loaded = true →
    PRESETS.find? (fun q => q.name = s.selectedPreset) = some p →
    (p.name = "自定义" →
      validateCustomSettings s.customResolution s.customBitrate = none) →
    (handleEncode s beh).1.isEncoding = false ∧
    (jobSucceeds (stagingState s) p beh = false →
      failNotify ∈ (handleEncode s beh).2) ∧
    (jobSucceeds (stagingState s) p beh = true →
      successNotify ∈ (handleEncode s beh).2) := by
  intro s beh fn p hf hl hfind hok
  rw [handleEncode_run hf hl hfind hok]
  refine ⟨runJob_isEncoding _ _ _ _, ?_, ?_⟩
  · intro hfail
    exact List.mem_append_right _ (runJob_fail_notify hfail)
  · intro hsucc
    obtain ⟨r, _, _, heq⟩ := @runJob_success_trace (stagingState s) p fn beh hsucc
    rw [heq]
    simp [successNotify]

/-- Witness for C6 on a run whose engine `exec` step throws: the in-flight
flag ends false and the failure notification is emitted. -/
theorem inflight_flag_cleared_witness :
    (handleEncode exRun behExecFail).1.isEncoding = false ∧
    failNotify ∈ (handleEncode exRun behExecFail).2 := by
  have h := inflight_flag_cleared exRun behExecFail "movie.clip.mp4"
    ⟨"标清方形", some 480, some "1M"⟩ rfl rfl (by rfl)
    (fun hc => absurd hc (by decide))
  exact ⟨h.1, h.2.1 (by decide)⟩

/-- Claim C7 (counterexample): triggering a new encode does not reset the
progress fraction.  In the concrete state `exStale` (a previous job left
progress at 1) the trigger path runs the job from `stagingState exStale`,
whose observable progress is still 1 — not 0 — even though its log buffer
was cleared: an observer between the trigger and the engine's first
progress event of the new job sees the previous job's value. -/
theorem progress_not_reset_cex :
    exStale.progress = 1 ∧
    (stagingState exStale).progress = 1 ∧
    (stagingState exStale).progress ≠ 0 ∧
    (stagingState exStale).logs = [] ∧
    handleEncode exStale behOk =
      ((runJob (stagingState exStale) ⟨"标清方形", some 480, some "1M"⟩ "b.mp4" behOk).1,
        revokeEffects exStale ++
          (runJob (stagingState exStale) ⟨"标清方形", some 480, some "1M"⟩ "b.mp4" behOk).2) :=
  ⟨rfl, rfl, by decide, rfl,
   handleEncode_run rfl rfl (by rfl) (fun hc => absurd hc (by decide))⟩

/-- Claim C7 (amended): at the start of each new job the trigger path clears
the log buffer and sets the in-flight flag but leaves the progress fraction
untouched — it keeps the previous job's value until the engine's first
progress callback of the new job overwrites it. -/
theorem progress_not_reset_amended :
    ∀ s : EncoderState,
      (stagingState s).logs = [] ∧
      (stagingState s).isEncoding = true ∧
      (stagingState s).progress = s.progress ∧
      ∀ p, (onProgressEvent s p).progress = p :=
  fun s => ⟨rfl, rfl, rfl, fun p => rfl⟩

/-- Claim C8: the time estimator, while active with positive progress,
captures the start timestamp at the first positive-progress observation and
keeps it afterwards, computes elapsed as the floored second count since
start and the estimate as ⌊elapsed / progress⌋; the displayed remaining
time is max(estimated − elapsed, 1); and any observation with the active
flag false resets the whole state to its initial value. -/
theorem encoding_time_spec :
    (∀ (st : TimeState) (p : ℚ) (now : ℤ), p > 0 →
      (encodingTimeStep st true p now).startTime = some (st.startTime.getD now) ∧
      (encodingTimeStep st true p now).elapsedTime =
        Int.fdiv (now - st.startTime.getD now) 1000 ∧
      (encodingTimeStep st true p now).estimatedTime =
        ⌊((Int.fdiv (now - st.startTime.getD now) 1000 : ℤ) : ℚ) / p⌋) ∧
    (∀ (st : TimeState) (p : ℚ) (now : ℤ),
      encodingTimeStep st false p now = initTimeState) ∧
    (∀ st : TimeState,
      displayedRemaining st = max (st.estimatedTime - st.elapsedTime) 1) := by
  refine ⟨?_, ?_, fun st => rfl⟩
  · intro st p now hp
    unfold encodingTimeStep
    rw [if_pos ⟨rfl, hp⟩]
    refine ⟨rfl, rfl, ?_⟩
    simp only [if_pos hp]
  · intro st p now
    simp [encodingTimeStep, initTimeState]

/-- Witness for C8 on the spec's own example: progress 0.25 observed with
start captured 10 s ago gives elapsed 10, estimate 40, displayed remaining
30; an inactive observation resets the state. -/
theorem encoding_time_spec_witness :
    (0 : ℚ) < 1 / 4 ∧
    (encodingTimeStep ⟨some 5000, 0, 0⟩ true (1 / 4) 15000).elapsedTime = 10 ∧
    (encodingTimeStep ⟨some 5000, 0, 0⟩ true (1 / 4) 15000).estimatedTime = 40 ∧
    displayedRemaining ⟨some 5000, 10, 40⟩ = 30 ∧
    encodingTimeStep ⟨some 5000, 10, 40⟩ false (1 / 4) 20000 = initTimeState := by
  have h := encoding_time_spec.1 ⟨some 5000, 0, 0⟩ (1 / 4) 15000 (by norm_num)
  have hfd : Int.fdiv (15000 - ((some (5000 : ℤ)).getD 15000)) 1000 = 10 := by decide
  refine ⟨by norm_num, ?_, ?_, ?_,
    encoding_time_spec.2.1 ⟨some 5000, 10, 40⟩ (1 / 4) 20000⟩
  · rw [h.2.1]; exact hfd
  · rw [h.2.2]
    rw [show ((some (5000 : ℤ)).getD 15000 : ℤ) = 5000 from rfl] at hfd ⊢
    rw [hfd]
    rw [show (((10 : ℤ) : ℚ)) / (1 / 4) = 40 by norm_num]
    simp
  · rw [encoding_time_spec.2.2 ⟨some 5000, 10, 40⟩]; decide

/-- Claim C4: with the custom preset selected, an out-of-range custom
resolution (outside [100,1920]) or bitrate (outside [0.5,10]) makes the
trigger emit exactly the field-specific validation notification naming the
valid range, with no engine contact at all (no `ffWrite`, no `ffExec`);
both values in range pass validation, and the custom bitrate is serialized
as its number rendering followed by `M`. -/
theorem custom_settings_gate :
    (∀ (s : EncoderState) (beh : EngineBehavior) (fn : String),
      s.file = some fn → s.loaded = true → s.selectedPreset = "自定义" →
      s.customResolution < 100 ∨ s.customResolution > 1920 →
      handleEncode s beh =
        ({ s with encodedVideoUrl := none },
          revokeEffects s ++ [Effect.notify "错误" "分辨率必须在100到1920之间" "red"]) ∧
      (∀ args, Effect.ffExec args ∉ (handleEncode s beh).2) ∧
      (∀ nm, Effect.ffWrite nm ∉ (handleEncode s beh).2)) ∧
    (∀ (s : EncoderState) (beh : EngineBehavior) (fn : String),
      s.file = some fn → s.loaded = true → s.selectedPreset = "自定义" →
      100 ≤ s.customResolution → s.customResolution ≤ 1920 →
      s.customBitrate < 1 / 2 ∨ s.customBitrate > 10 →
      handleEncode s beh =
        ({ s with encodedVideoUrl := none },
          revokeEffects s ++ [Effect.notify "错误" "比特率必须在0.5到10 Mbps之间" "red"]) ∧
      (∀ args, Effect.ffExec args ∉ (handleEncode s beh).2) ∧
      (∀ nm, Effect.ffWrite nm ∉ (handleEncode s beh).2)) ∧
    (∀ res bit : ℚ, 100 ≤ res → res ≤ 1920 → 1 / 2 ≤ bit → bit ≤ 10 →
      validateCustomSettings res bit = none) ∧
    (∀ (s : EncoderState) (p : Preset), p.name = "自定义" →
      resolvedBitrate s p = jsNumToString s.customBitrate ++ "M") := by
  refine ⟨?_, ?_, ?_, ?_⟩
  · intro s beh fn hf hl hp hr
    refine validation_stop hf hl hp ?_
    unfold validateCustomSettings MIN_RESOLUTION MAX_RESOLUTION
    rw [if_pos hr]
    rfl
  · intro s beh fn hf hl hp hr1 hr2 hb
    refine validation_stop hf hl hp ?_
    rw [← MIN_BITRATE_eq] at hb
    unfold validateCustomSettings MIN_RESOLUTION MAX_RESOLUTION MAX_BITRATE
    rw [if_neg (by rintro (h | h) <;> linarith), if_pos hb]
    rfl
  · intro res bit h1 h2 h3 h4
    rw [← MIN_BITRATE_eq] at h3
    unfold validateCustomSettings MIN_RESOLUTION MAX_RESOLUTION MAX_BITRATE
    rw [if_neg (by rintro (h | h) <;> linarith),
      if_neg (by rintro (h | h) <;> linarith)]
  · intro s p hp
    unfold resolvedBitrate
    rw [if_pos hp]

/-- Witness for C4: custom resolution 50 yields only the resolution-range
notification and no engine invocation; (480, 1) validates and the bitrate
serializes to `"1M"`. -/
theorem custom_settings_gate_witness :
    handleEncode exCustomBad behOk =
      ({ exCustomBad with encodedVideoUrl := none },
        [Effect.notify "错误" "分辨率必须在100到1920之间" "red"]) ∧
    (∀ args, Effect.ffExec args ∉ (handleEncode exCustomBad behOk).2) ∧
    validateCustomSettings 480 1 = none ∧
    resolvedBitrate exCustomOk ⟨"自定义", none, none⟩ = "1M" := by
  have h1 := custom_settings_gate.1 exCustomBad behOk "a.mp4" rfl rfl rfl
    (Or.inl (by decide))
  refine ⟨h1.1, h1.2.1, ?_, ?_⟩
  · exact custom_settings_gate.2.2.1 480 1 (by norm_num) (by norm_num)
      (by norm_num) (by norm_num)
  · rw [custom_settings_gate.2.2.2 exCustomOk ⟨"自定义", none, none⟩ rfl]
    rfl

/-- Claim C5: every engine invocation `handleEncode` emits carries exactly
the fixed command line: input slot `input.mp4`, the built filter expression
on the video stream (`-filter:v`), the resolved target bitrate (`-b:v`),
audio copied verbatim (`-c:a copy`), output slot `output.mp4`; the output
extension selects the MP4 container, and with no codec or preset flags the
engine defaults (modelled from the spec) give H.264 video and the "medium"
speed preset. -/
theorem exec_command_fixed :
    ∀ (s : EncoderState) (beh : EngineBehavior) (args : List String),
      Effect.ffExec args ∈ (handleEncode s beh).2 →
      ∃ p r, PRESETS.find? (fun q => q.name = s.selectedPreset) = some p ∧
        resolvedResolution (stagingState s) p = some r ∧
        args = execArgs (getScalingFilter s.scalingStrategy s.backgroundColor r)
          (resolvedBitrate (stagingState s) p) ∧
        argValue args "-i" = some "input.mp4" ∧
        argValue args "-filter:v" =
          some (getScalingFilter s.scalingStrategy s.backgroundColor r) ∧
        argValue args "-b:v" = some (resolvedBitrate (stagingState s) p) ∧
        argValue args "-c:a" = some "copy" ∧
        args.getLast? = some "output.mp4" ∧
        Option.map containerForOutput args.getLast? = some "MP4" ∧
        effectiveVideoCodec args = "H.264" ∧
        effectiveSpeedPreset args = "medium" := by
  intro s beh args h
  obtain ⟨p, fn, hf, hfind, hmem⟩ := handleEncode_mem_exec h
  obtain ⟨r, hres, hr0, hargs⟩ := runJob_mem_exec hmem
  subst hargs
  exact ⟨p, r, hfind, hres, rfl, rfl, rfl, rfl, rfl, rfl, rfl, rfl, rfl⟩

/-- Witness for C5 on the concrete run from `exRun`: its emitted command is
the fixed template with the 480×480 cover filter and bitrate `1M`. -/
theorem exec_command_fixed_witness :
    ∃ p r, PRESETS.find? (fun q => q.name = exRun.selectedPreset) = some p ∧
      resolvedResolution (stagingState exRun) p = some r ∧
      execArgs (getScalingFilter ScalingStrategy.cover "#000000" 480) "1M" =
        execArgs (getScalingFilter exRun.scalingStrategy exRun.backgroundColor r)
          (resolvedBitrate (stagingState exRun) p) ∧
      argValue (execArgs (getScalingFilter ScalingStrategy.cover "#000000" 480) "1M")
        "-i" = some "input.mp4" ∧
      argValue (execArgs (getScalingFilter ScalingStrategy.cover "#000000" 480) "1M")
        "-filter:v" =
        some (getScalingFilter exRun.scalingStrategy exRun.backgroundColor r) ∧
      argValue (execArgs (getScalingFilter ScalingStrategy.cover "#000000" 480) "1M")
        "-b:v" = some (resolvedBitrate (stagingState exRun) p) ∧
      argValue (execArgs (getScalingFilter ScalingStrategy.cover "#000000" 480) "1M")
        "-c:a" = some "copy" ∧
      (execArgs (getScalingFilter ScalingStrategy.cover "#000000" 480) "1M").getLast?
        = some "output.mp4" ∧
      Option.map containerForOutput
        (execArgs (getScalingFilter ScalingStrategy.cover "#000000" 480) "1M").getLast?
        = some "MP4" ∧
      effectiveVideoCodec
        (execArgs (getScalingFilter ScalingStrategy.cover "#000000" 480) "1M") = "H.264" ∧
      effectiveSpeedPreset
        (execArgs (getScalingFilter ScalingStrategy.cover "#000000" 480) "1M") = "medium" :=
  exec_command_fixed exRun behOk
    (execArgs (getScalingFilter ScalingStrategy.cover "#000000" 480) "1M") (by decide)

/-- Claim C9: when an encode is triggered while a previous result exists,
its successful trace revokes the previous object-URL handle first (index 0)
and creates the new result's handle only later, so along every prefix of
the trace at most one handle is live and at the end exactly the new handle
remains — handles never accumulate across encodes. -/
theorem url_handle_discipline :
    ∀ (s : EncoderState) (beh : EngineBehavior) (fn : String) (p : Preset) (u : ℕ),
      s.file = some fn → s.loaded = true → s.encodedVideoUrl = some u →
      PRESETS.find? (fun q => q.name = s.selectedPreset) = some p →
      (p.name = "自定义" →
        validateCustomSettings s.customResolution s.customBitrate = none) →
      jobSucceeds (stagingState s) p beh = true →
      ∃ r, resolvedResolution (stagingState s) p = some r ∧
        (handleEncode s beh).2 =
          [Effect.revokeUrl u, Effect.ffWrite "input.mp4",
           Effect.ffExec (execArgs
             (getScalingFilter s.scalingStrategy s.backgroundColor r)
             (resolvedBitrate (stagingState s) p)),
           Effect.ffRead "output.mp4", Effect.createUrl beh.freshUrl,
           Effect.download ("encoded_" ++ baseName fn ++ ".mp4") beh.freshUrl,
           successNotify] ∧
        (∀ n, (liveHandles [u] ((handleEncode s beh).2.take n)).length ≤ 1) ∧
        liveHandles [u] (handleEncode s beh).2 = [beh.freshUrl] := by
  intro s beh fn p u hf hl hu hfind hok hsucc
  obtain ⟨r, hres, hr0, heq⟩ := @runJob_success_trace (stagingState s) p fn beh hsucc
  have hrev : revokeEffects s = [Effect.revokeUrl u] := by
    unfold revokeEffects
    rw [hu]
  have htr : (handleEncode s beh).2 =
      [Effect.revokeUrl u, Effect.ffWrite "input.mp4",
       Effect.ffExec (execArgs
         (getScalingFilter s.scalingStrategy s.backgroundColor r)
         (resolvedBitrate (stagingState s) p)),
       Effect.ffRead "output.mp4", Effect.createUrl beh.freshUrl,
       Effect.download ("encoded_" ++ baseName fn ++ ".mp4") beh.freshUrl,
       successNotify] := by
    rw [handleEncode_run hf hl hfind hok]
    rw [heq, hrev]
    rfl
  refine ⟨r, hres, htr, ?_, ?_⟩
  · intro n
    rw [htr]
    rcases n with _ | n
    · simp [liveHandles]
    rcases n with _ | n
    · simp [liveHandles, urlStep]
    rcases n with _ | n
    · simp [liveHandles, urlStep]
    rcases n with _ | n
    · simp [liveHandles, urlStep]
    rcases n with _ | n
    · simp [liveHandles, urlStep]
    rcases n with _ | n
    · simp [liveHandles, urlStep]
    rcases n with _ | n
    · simp [liveHandles, urlStep]
    · simp [liveHandles, urlStep, successNotify, List.take_succ_cons, List.take_nil]
  · rw [htr]
    simp [liveHandles, urlStep, successNotify]

/-- Witness for C9 on the concrete stale state (previous handle 3): the run
revokes handle 3 first, creates handle 42 later, and ends with only handle
42 live. -/
theorem url_handle_discipline_witness :
    ∃ r, resolvedResolution (stagingState exStale) ⟨"标清方形", some 480, some "1M"⟩
        = some r ∧
      (handleEncode exStale behOk).2 =
        [Effect.revokeUrl 3, Effect.ffWrite "input.mp4",
         Effect.ffExec (execArgs
           (getScalingFilter exStale.scalingStrategy exStale.backgroundColor r)
           (resolvedBitrate (stagingState exStale) ⟨"标清方形", some 480, some "1M"⟩)),
         Effect.ffRead "output.mp4", Effect.createUrl behOk.freshUrl,
         Effect.download ("encoded_" ++ baseName "b.mp4" ++ ".mp4") behOk.freshUrl,
         successNotify] ∧
      (∀ n, (liveHandles [3] ((handleEncode exStale behOk).2.take n)).length ≤ 1) ∧
      liveHandles [3] (handleEncode exStale behOk).2 = [behOk.freshUrl] :=
  url_handle_discipline exStale behOk "b.mp4" ⟨"标清方形", some 480, some "1M"⟩ 3
    rfl rfl rfl (by rfl) (fun hc => absurd hc (by decide)) (by decide)

end Theorems

end VideoEncoder
